import Mathlib

/-!
# qjournalctl: the journal dialog of `src/showbootlog.cpp`

A shallow embedding of the class `ShowBootLog`: the command line it builds
(`updateBootLog`), the receive path with the grep filter and the identifier scan
(`appendToBootLog`), the unit selector (`on_unitCombo_currentTextChanged`) and the
search in the displayed buffer (`execute_find`).

Conventions of the embedding

* A `QString` is the list of its code units (`List Char`); `size()` is the length of
  the list.
* The dialog is a record of its member variables and of the widget values the
  methods read or write; every method is a function from the state before the call to
  the state after it.
* Calls into the Qt library (`QString`, `QTextStream`, `QRegularExpression`,
  `QDateTime`, `QPlainTextEdit`) are given executable models next to their first use.
  `QString::toLower` is kept abstract: the functions of the receive path take it as
  the argument `toLower`.
* Label texts and style sheets that only decorate the dialog (`numberOfEntriesLabel`,
  `setStyleSheet`, the completer of the identifier line edit) are not part of the
  state.
-/

/-- A string of the program: the list of its code units. -/
abbrev QString := List Char

namespace QString

/-- The double quote character, written `\"` inside the string literals of the source. -/
def dquote : Char := Char.ofNat 34

/-- Model of `QString::number(int)`: the decimal digits, with a minus sign for a
negative number. -/
def number (n : Int) : QString :=
  if n < 0 then '-' :: Nat.toDigits 10 n.natAbs else Nat.toDigits 10 n.toNat

/-- Decimal digits of `n`, padded with zeros on the left to at least `width` digits
(the way the date formatter prints a numeric field). -/
def zeroPadded (width n : Nat) : QString :=
  List.replicate (width - (Nat.toDigits 10 n).length) '0' ++ Nat.toDigits 10 n

/-- Model of `QChar::isSpace`: the ASCII white space characters, U+0085, U+00A0 and
the Unicode separators (categories Zs, Zl, Zp). -/
def isSpace (c : Char) : Bool :=
  c.toNat = 0x20 || (0x09 ≤ c.toNat && c.toNat ≤ 0x0D) || c.toNat = 0x85 || c.toNat = 0xA0
    || c.toNat = 0x1680 || (0x2000 ≤ c.toNat && c.toNat ≤ 0x200A) || c.toNat = 0x2028
    || c.toNat = 0x2029 || c.toNat = 0x202F || c.toNat = 0x205F || c.toNat = 0x3000

/-- Model of `QString::trimmed`: white space removed from the start and from the end. -/
def trimmed (s : QString) : QString :=
  (s.dropWhile isSpace).rdropWhile isSpace

/-- Model of `QString::lastIndexOf(QChar)`: the index of the last occurrence of `c`,
or -1 when there is none. -/
def lastIndexOf : QString → Char → Int
  | [], _ => -1
  | x :: xs, c =>
    if 0 ≤ lastIndexOf xs c then lastIndexOf xs c + 1
    else if x = c then 0 else -1

/-- Model of `QString::indexOf(QString)` searching from the start: the index of the
first occurrence of `sub`, or -1 when there is none. -/
def indexOf : QString → QString → Int
  | [], sub => if sub = [] then 0 else -1
  | x :: xs, sub =>
    if sub.isPrefixOf (x :: xs) then 0
    else if 0 ≤ indexOf xs sub then indexOf xs sub + 1 else -1

/-- Model of `QString::mid(position)`: the rest of the string from `position` on
(the whole string for a negative position). -/
def midFrom (s : QString) (position : Int) : QString :=
  s.drop position.toNat

/-- Model of `QString::mid(0, n)`: the first `n` code units (the whole string when
`n` is negative, which is how Qt reads a negative length). -/
def midTo (s : QString) (n : Int) : QString :=
  if n < 0 then s else s.take n.toNat

/-- Lower-casing of the ASCII letters, code unit by code unit: the instance of
`toLower` at which the examples are evaluated. -/
def toLowerAscii (s : QString) : QString :=
  s.map Char.toLower

end QString

/-- The fields of a `QDateTime` that the formatter reads. -/
structure QDateTime where
  year : Nat
  month : Nat
  day : Nat
  hour : Nat
  minute : Nat
  second : Nat

/-- Model of `QDateTime::toString(format)` for the numeric fields `yyyy`, `MM`, `dd`,
`hh`, `mm` and `ss` (printed in decimal with leading zeros); every other character of
the format is copied as it is. -/
def QDateTime.toString (dt : QDateTime) : QString → QString
  | 'y' :: 'y' :: 'y' :: 'y' :: r => QString.zeroPadded 4 dt.year ++ QDateTime.toString dt r
  | 'M' :: 'M' :: r => QString.zeroPadded 2 dt.month ++ QDateTime.toString dt r
  | 'd' :: 'd' :: r => QString.zeroPadded 2 dt.day ++ QDateTime.toString dt r
  | 'h' :: 'h' :: r => QString.zeroPadded 2 dt.hour ++ QDateTime.toString dt r
  | 'm' :: 'm' :: r => QString.zeroPadded 2 dt.minute ++ QDateTime.toString dt r
  | 's' :: 's' :: r => QString.zeroPadded 2 dt.second ++ QDateTime.toString dt r
  | c :: r => c :: QDateTime.toString dt r
  | [] => []

/-- Model of `QSet<QString>`: a duplicate-free list; the order of the list is the order
in which a range-based `for` visits the set. -/
structure QSet where
  values : List QString
  nodup : values.Nodup

namespace QSet

/-- The set after `clear()`. -/
def clear : QSet := ⟨[], List.nodup_nil⟩

/-- Membership test (`contains`). -/
def contains (s : QSet) (x : QString) : Bool := decide (x ∈ s.values)

/-- The set after `insert(x)`. -/
def insert (s : QSet) (x : QString) : QSet :=
  if h : x ∈ s.values then s
  else ⟨s.values ++ [x], List.Nodup.append s.nodup (List.nodup_singleton x)
    (by intro a ha hx; rw [List.mem_singleton] at hx; exact h (hx ▸ ha))⟩

/-- The set after `+=` with the elements of a list, inserted one after the other. -/
def unite (s : QSet) (xs : List QString) : QSet :=
  xs.foldl insert s

end QSet

/-- The part of the injected `Connection` that the dialog drives: whether a command is
running and the commands handed to `run`, oldest first. -/
structure Connection where
  running : Bool
  commands : List QString

namespace Connection

/-- The method `isRunning()`. -/
def isRunning (c : Connection) : Bool := c.running

/-- The method `close()`. -/
def close (c : Connection) : Connection := { c with running := false }

/-- The method `run(command)`: the command is recorded and the connection runs. -/
def run (c : Connection) (command : QString) : Connection :=
  { running := true, commands := c.commands ++ [command] }

end Connection

/-- The widget values read and written by the modelled methods. -/
structure Ui where
  plainTextEdit : QString
  acceptedIdentifierLabel : QString
  identifiersLineEdit : QString
  sinceDateTimeEdit : QDateTime
  untilDateTimeEdit : QDateTime
  allCheckBox : Bool
  caseCheckBox : Bool

/-- The member variables of the dialog. `numberOfBytesRead` is kept as an unbounded
natural number. -/
structure ShowBootLog where
  ui : Ui
  connection : Connection
  completeJournal : Bool
  realtime : Bool
  reverse : Bool
  bootid : QString
  maxPriority : Int
  sinceFlag : Bool
  untilFlag : Bool
  empty : Bool
  numberOfBytesRead : Nat
  unitOption : QString
  identifierFlags : QString
  grepFilterText : QString
  grepIncompleteLine : QString
  allIdentifiers : QSet
  acceptedIdentifiers : QSet

/-- The loop of `updateBootLog` over the accepted identifiers: the pair of
`identifierFlags` and `acceptedIdentifierLabelText` after the loop. -/
def regenerateFlags (acceptedIdentifiers : List QString) : QString × QString :=
  acceptedIdentifiers.foldl
    (fun acc identifier =>
      (acc.1 ++ (" -t ".toList ++ identifier), acc.2 ++ (identifier ++ "  ".toList)))
    ([], [])

/-- The text shown while nothing was received (line 148). -/
def emptyJournalMessage : QString :=
  "Selected journal seems to be empty using selected filter settings.".toList

/-- The format string of both time bounds (lines 184 and 189). -/
def timeFormat : QString := "yyyy-MM-dd hh:mm:00".toList

namespace ShowBootLog

/-- The local `sinceStr` of `updateBootLog` (lines 182-185). -/
def sinceStr (s : ShowBootLog) : QString :=
  if s.sinceFlag then
    " --since ".toList ++ [QString.dquote] ++ s.ui.sinceDateTimeEdit.toString timeFormat
      ++ [QString.dquote]
  else []

/-- The local `untilStr` of `updateBootLog` (lines 187-190). -/
def untilStr (s : ShowBootLog) : QString :=
  if s.untilFlag then
    " --until ".toList ++ [QString.dquote] ++ s.ui.untilDateTimeEdit.toString timeFormat
      ++ [QString.dquote]
  else []

/-- The local `command` of `updateBootLog` when it is handed to `run` (lines 193-217);
`identifierFlags` is the member as the first part of the method left it. -/
def command (s : ShowBootLog) (identifierFlags : QString) : QString :=
  let command : QString :=
    if s.completeJournal then
      "journalctl -q -a -p ".toList ++ QString.number s.maxPriority ++ s.sinceStr ++ s.untilStr
    else if s.realtime then
      "journalctl -q -f --no-tail -p ".toList ++ QString.number s.maxPriority ++ " -b ".toList
        ++ s.bootid ++ s.sinceStr ++ s.untilStr
    else
      "journalctl -q -a -p ".toList ++ QString.number s.maxPriority ++ " -b ".toList
        ++ s.bootid ++ s.sinceStr ++ s.untilStr
  let command := if s.ui.allCheckBox then command ++ " --all ".toList else command
  let command := command ++ s.unitOption
  let command := if s.reverse then command ++ " -r".toList else command
  command ++ identifierFlags

/-- The method `updateBootLog(keepIdentifiers)` (lines 144-231). -/
def updateBootLog (s : ShowBootLog) (keepIdentifiers : Bool) : ShowBootLog :=
  let s : ShowBootLog :=
    { s with empty := true, ui := { s.ui with plainTextEdit := emptyJournalMessage } }
  let s : ShowBootLog :=
    if !keepIdentifiers then
      { s with
        allIdentifiers := QSet.clear
        acceptedIdentifiers := QSet.clear
        identifierFlags := []
        ui := { s.ui with acceptedIdentifierLabel := [] } }
    else
      { s with
        identifierFlags := (regenerateFlags s.acceptedIdentifiers.values).1
        ui := { s.ui with
          acceptedIdentifierLabel := (regenerateFlags s.acceptedIdentifiers.values).2 } }
  let command := s.command s.identifierFlags
  let connection := if !s.connection.isRunning then s.connection else s.connection.close
  { s with numberOfBytesRead := 0, connection := connection.run command }

/-- The method `acceptIdentifier()` (lines 233-238). -/
def acceptIdentifier (s : ShowBootLog) : ShowBootLog :=
  let s : ShowBootLog :=
    { s with acceptedIdentifiers := s.acceptedIdentifiers.insert s.ui.identifiersLineEdit }
  let s := s.updateBootLog true
  { s with ui := { s.ui with identifiersLineEdit := [] } }

end ShowBootLog

/-- A dialog state for the examples: the member values the constructor sets (priority 7,
no unit option, no grep filter, no pending line), an idle connection, both time bounds
at 2024-03-05 09:07:42 and no time bound selected. -/
def initialDialog (completeJournal realtime reverse : Bool) (bootid : QString) : ShowBootLog :=
  { ui :=
      { plainTextEdit := []
        acceptedIdentifierLabel := []
        identifiersLineEdit := []
        sinceDateTimeEdit := ⟨2024, 3, 5, 9, 7, 42⟩
        untilDateTimeEdit := ⟨2024, 3, 5, 9, 7, 42⟩
        allCheckBox := false
        caseCheckBox := false }
    connection := ⟨false, []⟩
    completeJournal := completeJournal
    realtime := realtime
    reverse := reverse
    bootid := bootid
    maxPriority := 7
    sinceFlag := false
    untilFlag := false
    empty := true
    numberOfBytesRead := 0
    unitOption := []
    identifierFlags := []
    grepFilterText := []
    grepIncompleteLine := []
    allIdentifiers := QSet.clear
    acceptedIdentifiers := QSet.clear }

/-! ## The receive path: `appendToBootLog` -/

/-- A line as `QTextStream::readLineInto` returns it: a carriage return right before the
end of the line is not part of the line. -/
def stripCR (line : QString) : QString :=
  if line.getLast? = some '\r' then line.dropLast else line

/-- Model of the calls `stream.readLineInto(&line)` repeated until the stream is at its
end, on a stream over `text`: the lines read, in order. `cur` holds the characters of
the line being read. A line ends at a newline or at the end of the text; at the end of
the text nothing more is read. -/
def readLinesFrom : QString → QString → List QString
  | cur, [] => if cur = [] then [] else [stripCR cur]
  | cur, c :: rest =>
    if c = '\n' then stripCR cur :: readLinesFrom [] rest
    else readLinesFrom (cur ++ [c]) rest

/-- The lines of a text, as the loop `while (stream.readLineInto(&line))` sees them. -/
def readLines (text : QString) : List QString :=
  readLinesFrom [] text

/-- The body of the loop of lines 279-293: `toDisplay` after one line. -/
def grepLine (toLower : QString → QString) (case_s : Bool) (grepFilterText : QString)
    (toDisplay line : QString) : QString :=
  if line.length = 0 then toDisplay
  else if case_s then
    if 0 ≤ QString.indexOf line grepFilterText then toDisplay ++ line ++ "\n".toList
    else toDisplay
  else
    if 0 ≤ QString.indexOf (toLower line) (toLower grepFilterText) then
      toDisplay ++ line ++ "\n".toList
    else toDisplay

/-- The locals of `appendToBootLog` after the filter branch (lines 255-296). -/
structure GrepStep where
  readString : QString
  grepIncompleteLine : QString
  toDisplay : QString

/-- The filter branch of `appendToBootLog` (lines 255-293), from the members
`grepFilterText` and `grepIncompleteLine` and the chunk `readString`. -/
def grepFilter (toLower : QString → QString) (case_s : Bool)
    (grepFilterText grepIncompleteLine readString : QString) : GrepStep :=
  let joined : QString × QString :=
    if grepIncompleteLine.length > 0 then (grepIncompleteLine ++ readString, [])
    else (readString, grepIncompleteLine)
  let readString := joined.1
  let grepIncompleteLine := joined.2
  let last_newline_idx := QString.lastIndexOf readString '\n'
  let cut : QString × QString :=
    if last_newline_idx < 0 then (readString, grepIncompleteLine ++ readString)
    else if last_newline_idx = (readString.length : Int) - 1 then (readString, grepIncompleteLine)
    else (QString.midTo readString last_newline_idx,
          QString.midFrom readString (last_newline_idx + 1))
  { readString := cut.1
    grepIncompleteLine := cut.2
    toDisplay := (readLines cut.1).foldl (grepLine toLower case_s grepFilterText) [] }

/-- Model of `QPlainTextEdit::appendPlainText`: the text becomes a new paragraph at the
end of the document; an empty document has one empty paragraph, which receives the
text. -/
def appendPlainText (document text : QString) : QString :=
  if document = [] then text else document ++ "\n".toList ++ text

/-- The character class `[a-zA-Z0-9\_]` of the identifier pattern. -/
def isIdentifierChar (c : Char) : Bool :=
  ('a' ≤ c && c ≤ 'z') || ('A' ≤ c && c ≤ 'Z') || ('0' ≤ c && c ≤ '9') || c = '_'

/-- The character class `\d` of the identifier pattern (ASCII digits: the pattern is
compiled without the Unicode property option). -/
def isDigitChar (c : Char) : Bool :=
  '0' ≤ c && c ≤ '9'

/-- A match of the pattern ` ([a-zA-Z0-9\_]+)\[\d+\]\: ` at the start of `text`: the first
capture group and the text after the match. Both repetitions are greedy; a shorter
repetition is followed by a character of its own class, so backtracking finds
nothing more. -/
def matchIdentifier (text : QString) : Option (QString × QString) :=
  match text with
  | ' ' :: t1 =>
    if t1.takeWhile isIdentifierChar = [] then none
    else
      match t1.dropWhile isIdentifierChar with
      | '[' :: t2 =>
        if t2.takeWhile isDigitChar = [] then none
        else
          match t2.dropWhile isDigitChar with
          | ']' :: ':' :: ' ' :: t3 => some (t1.takeWhile isIdentifierChar, t3)
          | _ => none
      | _ => none
  | _ => none

/-- Model of `identifierRegexp.globalMatch(text)` followed by `captured(1)` of every
match: the scan goes from left to right and resumes after the end of each match.
`skip` is the number of characters still inside the last match. -/
def globalMatchFrom : Nat → QString → List QString
  | _, [] => []
  | skip + 1, _ :: rest => globalMatchFrom skip rest
  | 0, c :: rest =>
    match matchIdentifier (c :: rest) with
    | some (identifier, after) =>
      identifier :: globalMatchFrom (rest.length - after.length) rest
    | none => globalMatchFrom 0 rest

/-- The first capture groups of all matches of the identifier pattern in `text`. -/
def globalMatch (text : QString) : List QString :=
  globalMatchFrom 0 text

namespace ShowBootLog

/-- The locals of `appendToBootLog` at line 301: `readString`, the member
`grepIncompleteLine`, and in `toDisplay` the text handed to `appendPlainText`. -/
def received (toLower : QString → QString) (s : ShowBootLog) (readString : QString) :
    GrepStep :=
  if s.grepFilterText.length > 0 then
    let step := grepFilter toLower s.ui.caseCheckBox s.grepFilterText s.grepIncompleteLine
      readString
    { step with toDisplay := QString.trimmed step.toDisplay }
  else
    { readString := readString
      grepIncompleteLine := s.grepIncompleteLine
      toDisplay := readString }

/-- The slot `appendToBootLog(readString)` (lines 241-339). -/
def appendToBootLog (toLower : QString → QString) (s : ShowBootLog) (readString : QString) :
    ShowBootLog :=
  let s : ShowBootLog :=
    if s.empty then { s with empty := false, ui := { s.ui with plainTextEdit := [] } } else s
  let step := s.received toLower readString
  { s with
    grepIncompleteLine := step.grepIncompleteLine
    numberOfBytesRead := s.numberOfBytesRead + step.readString.length
    allIdentifiers := s.allIdentifiers.unite (globalMatch step.readString)
    ui := { s.ui with plainTextEdit := appendPlainText s.ui.plainTextEdit step.toDisplay } }

end ShowBootLog

/-! ## The unit selector -/

/-- The macro `UNIT_ALL`. -/
def UNIT_ALL : QString := "all".toList

/-- The macro `UNIT_VIGIL_ALL`. -/
def UNIT_VIGIL_ALL : QString := "vigil all".toList

/-- The array `unties`: the two fixed entries, the entries of the included file
`unities.h` (the argument `unities`) and the closing `nullptr`. -/
def unties (unities : List QString) : List (Option QString) :=
  some UNIT_ALL :: some UNIT_VIGIL_ALL :: (unities.map some ++ [none])

/-- The loop `while(*u) { unitOption += " -u "; unitOption += *u; u++; }` over the
array from the position of `u` on. -/
def unitLoop : List (Option QString) → QString → QString
  | some name :: u, unitOption => unitLoop u ((unitOption ++ " -u ".toList) ++ name)
  | _, unitOption => unitOption

/-- The slot `on_unitCombo_currentTextChanged(unit)` (lines 515-534). -/
def ShowBootLog.on_unitCombo_currentTextChanged (unities : List QString) (s : ShowBootLog)
    (unit : QString) : ShowBootLog :=
  let unitOption : QString := []
  let unitOption : QString :=
    if unit = UNIT_VIGIL_ALL then unitLoop ((unties unities).drop 2) unitOption
    else if unit ≠ UNIT_ALL then (unitOption ++ " -u ".toList) ++ unit
    else unitOption
  ({ s with unitOption := unitOption }).updateBootLog true

/-! ## Searching the displayed buffer -/

/-- A text cursor: the anchor and the position of the selection. -/
structure QTextCursor where
  anchor : Nat
  position : Nat

/-- The widgets that `execute_find` reads and writes: the text and the cursor of
`plainTextEdit`, and the text of `findStatusLabel`. -/
structure FindView where
  document : QString
  textCursor : QTextCursor
  findStatusLabel : QString

/-- The search string stands in the document at index `i`. With `caseSensitive` (the
flag `FindCaseSensitively`) code units are compared as they are, without it after the
case folding `fold`. -/
def occursAt (fold : Char → Char) (caseSensitive : Bool) (document string : QString)
    (i : Nat) : Bool :=
  if caseSensitive then string.isPrefixOf (document.drop i)
  else (string.map fold).isPrefixOf ((document.drop i).map fold)

/-- Forward search: the first index from `start` on at which the search string stands. -/
def findFrom (fold : Char → Char) (caseSensitive : Bool) (document string : QString)
    (start : Nat) : Option Nat :=
  ((List.range (document.length + 1 - start)).map (fun k => start + k)).find?
    (fun i => occursAt fold caseSensitive document string i)

namespace FindView

/-- Model of `plainTextEdit->find(string, findFlags)` as a forward search from the
cursor (from the end of its selection): when the string is found the cursor selects
the occurrence and the result is true, otherwise the cursor stays and the result is
false. -/
def find (fold : Char → Char) (v : FindView) (string : QString) (caseSensitive : Bool) :
    Bool × FindView :=
  match findFrom fold caseSensitive v.document string
      (max v.textCursor.anchor v.textCursor.position) with
  | some i => (true, { v with textCursor := ⟨i, i + string.length⟩ })
  | none => (false, v)

/-- The method `execute_find(QString, FindFlags)` (lines 437-449). -/
def execute_find (fold : Char → Char) (v : FindView) (string : QString)
    (caseSensitive : Bool) : FindView :=
  if !(v.find fold string caseSensitive).1 then
    let v : FindView :=
      { v with
        textCursor := ⟨0, 0⟩
        findStatusLabel := "Search started from the beginning".toList }
    if !(v.find fold string caseSensitive).1 then
      { (v.find fold string caseSensitive).2 with findStatusLabel := "Not found".toList }
    else (v.find fold string caseSensitive).2
  else (v.find fold string caseSensitive).2

/-- The slot `on_findLineEdit_returnPressed()` (lines 451-476) with the regular
expression checkbox unchecked: the status label is emptied and the text of the find
line edit is searched, case-sensitively unless the ignore-case checkbox is checked. -/
def on_findLineEdit_returnPressed (fold : Char → Char) (v : FindView)
    (findLineEdit : QString) (ignoreCase : Bool) : FindView :=
  let v : FindView := { v with findStatusLabel := [] }
  v.execute_find fold findLineEdit (!ignoreCase)

end FindView

/-- The time bound as the specification writes it, `yyyy-MM-dd hh:mm:00`: year, month,
day, hour and minute in decimal with leading zeros, and the seconds fixed to `00`. -/
def minuteStamp (dt : QDateTime) : QString :=
  QString.zeroPadded 4 dt.year ++ "-".toList ++ QString.zeroPadded 2 dt.month ++ "-".toList
    ++ QString.zeroPadded 2 dt.day ++ " ".toList ++ QString.zeroPadded 2 dt.hour ++ ":".toList
    ++ QString.zeroPadded 2 dt.minute ++ ":00".toList

/-- The command line as the specification composes it from the dialog state and the
identifier flags. -/
def specCommand (s : ShowBootLog) (identifierFlags : QString) : QString :=
  "journalctl -q ".toList
    ++ (if !s.completeJournal && s.realtime then "-f --no-tail".toList else "-a".toList)
    ++ " -p ".toList ++ QString.number s.maxPriority
    ++ (if s.completeJournal then [] else " -b ".toList ++ s.bootid)
    ++ (if s.sinceFlag then
          " --since \"".toList ++ minuteStamp s.ui.sinceDateTimeEdit ++ "\"".toList
        else [])
    ++ (if s.untilFlag then
          " --until \"".toList ++ minuteStamp s.ui.untilDateTimeEdit ++ "\"".toList
        else [])
    ++ (if s.ui.allCheckBox then " --all ".toList else [])
    ++ s.unitOption
    ++ (if s.reverse then " -r".toList else [])
    ++ identifierFlags

/-- The specification's test of a line against the filter text `f`: `f` is a substring
of the line, compared as it is when the case checkbox is checked and after lower-casing
both when it is not. -/
def containsFilter (toLower : QString → QString) (caseChecked : Bool) (f line : QString) :
    Prop :=
  if caseChecked then f <:+: line else toLower f <:+: toLower line

instance containsFilter.decidable (toLower : QString → QString) (caseChecked : Bool)
    (f line : QString) : Decidable (containsFilter toLower caseChecked f line) := by
  unfold containsFilter
  exact inferInstance

/-- The non-empty lines of `text` that contain the filter text, in their order. -/
def selectedLines (toLower : QString → QString) (caseChecked : Bool) (f text : QString) :
    List QString :=
  (readLines text).filter
    (fun line => line ≠ [] ∧ containsFilter toLower caseChecked f line)

/-- Every line followed by a newline, one after the other. -/
def joinLines (lines : List QString) : QString :=
  lines.flatMap (fun line => line ++ "\n".toList)

/-- The lines separated by newlines, with no newline after the last one. -/
def unlines : List QString → QString
  | [] => []
  | [line] => line
  | line :: rest => line ++ '\n' :: unlines rest

/-- A dialog with the grep filter `foo`, the case checkbox checked and nothing
received yet. -/
def grepDialog : ShowBootLog :=
  { initialDialog false false false "0".toList with
    grepFilterText := "foo".toList
    ui := { (initialDialog false false false "0".toList).ui with caseCheckBox := true } }

/-! ## Theorems -/

/-! ### The command line -/

theorem toString_timeFormat (dt : QDateTime) :
    dt.toString timeFormat = minuteStamp dt := by
  simp only [timeFormat, minuteStamp, List.append_assoc]
  rfl

theorem foldl_pair_append {α β γ : Type} (f : α → List β) (g : α → List γ) (xs : List α)
    (a : List β) (b : List γ) :
    xs.foldl (fun acc x => (acc.1 ++ f x, acc.2 ++ g x)) (a, b)
      = (a ++ xs.flatMap f, b ++ xs.flatMap g) := by
  induction xs generalizing a b with
  | nil => simp
  | cons x xs ih => simp only [List.foldl_cons, ih, List.flatMap_cons, List.append_assoc]

theorem regenerateFlags_eq (xs : List QString) :
    regenerateFlags xs = (xs.flatMap (fun identifier => " -t ".toList ++ identifier),
       xs.flatMap (fun identifier => identifier ++ "  ".toList)) := by
  unfold regenerateFlags
  rw [foldl_pair_append]
  rfl

theorem command_eq (s : ShowBootLog) (flags : QString) :
    s.command flags = specCommand s flags := by
  simp only [ShowBootLog.command, ShowBootLog.sinceStr, ShowBootLog.untilStr,
    toString_timeFormat, specCommand]
  cases s.completeJournal <;> cases s.realtime <;> cases s.reverse <;>
  cases s.sinceFlag <;> cases s.untilFlag <;> cases s.ui.allCheckBox <;>
  simp only [List.append_assoc, List.append_nil, List.nil_append, if_true, if_false,
    Bool.not_true, Bool.not_false, Bool.true_and, Bool.false_and, Bool.false_eq_true,
    reduceCtorEq] <;> rfl

theorem run_commands (b : Bool) (c : Connection) (command : QString) :
    ((if b then c else c.close).run command).commands = c.commands ++ [command] := by
  cases b <;> rfl

theorem updateBootLog_commands (s : ShowBootLog) (keepIdentifiers : Bool) :
    (s.updateBootLog keepIdentifiers).connection.commands
      = s.connection.commands
          ++ [specCommand s (s.updateBootLog keepIdentifiers).identifierFlags] := by
  rw [← command_eq]
  cases keepIdentifiers <;> exact run_commands _ _ _

theorem updateBootLog_identifierFlags (s : ShowBootLog) (keepIdentifiers : Bool) :
    (s.updateBootLog keepIdentifiers).identifierFlags
      = if keepIdentifiers then
          s.acceptedIdentifiers.values.flatMap (fun identifier => " -t ".toList ++ identifier)
        else [] := by
  cases keepIdentifiers <;> simp [ShowBootLog.updateBootLog, regenerateFlags_eq]

theorem not_prefix_of_take_ne {p q : QString} (rest : QString) (n : Nat) (hp : n ≤ p.length)
    (hq : n ≤ q.length) (h : p.take n ≠ q.take n) : ¬ p <+: q ++ rest := by
  rintro ⟨t, ht⟩
  apply h
  have h1 := congrArg (List.take n) ht
  rwa [List.take_append_of_le_length hp, List.take_append_of_le_length hq] at h1

theorem follow_prefix_iff (s : ShowBootLog) (flags : QString) :
    "journalctl -q -f --no-tail".toList <+: specCommand s flags
      ↔ (s.realtime = true ∧ s.completeJournal = false) := by
  unfold specCommand
  simp only [List.append_assoc]
  by_cases h : (!s.completeJournal && s.realtime) = true
  · have h2 : s.realtime = true ∧ s.completeJournal = false := by
      revert h; cases s.completeJournal <;> cases s.realtime <;> simp
    rw [if_pos h, ← List.append_assoc]
    exact iff_of_true (List.prefix_append _ _) h2
  · have h2 : ¬ (s.realtime = true ∧ s.completeJournal = false) := by
      revert h; cases s.completeJournal <;> cases s.realtime <;> simp
    rw [if_neg h, ← List.append_assoc]
    exact iff_of_false
      (not_prefix_of_take_ne _ 16 (by decide) (by decide) (by decide)) h2

/-- C1: the command that `updateBootLog` hands to `connection->run` is exactly
`journalctl -q ` + M + ` -p ` + decimal(maxPriority) + B + S + U + A + unitOption + R
+ identifierFlags, with the parts as `specCommand` spells them out; exactly one command
is run; the command starts with the follow option `-f --no-tail` exactly when realtime
is set and completeJournal is not; and the seconds of the two time bounds do not
reach the command (they are printed as `00`). -/
theorem updateBootLog_command (s : ShowBootLog) (keepIdentifiers : Bool) :
    (s.updateBootLog keepIdentifiers).connection.commands
        = s.connection.commands
            ++ [specCommand s (s.updateBootLog keepIdentifiers).identifierFlags]
      ∧ ("journalctl -q -f --no-tail".toList
            <+: specCommand s (s.updateBootLog keepIdentifiers).identifierFlags
          ↔ (s.realtime = true ∧ s.completeJournal = false))
      ∧ ∀ a b : Nat,
          (ShowBootLog.updateBootLog
              { s with ui := { s.ui with
                  sinceDateTimeEdit := { s.ui.sinceDateTimeEdit with second := a }
                  untilDateTimeEdit := { s.ui.untilDateTimeEdit with second := b } } }
              keepIdentifiers).connection.commands
            = (s.updateBootLog keepIdentifiers).connection.commands := by
  refine ⟨updateBootLog_commands s keepIdentifiers, follow_prefix_iff s _, ?_⟩
  intro a b
  rw [updateBootLog_commands, updateBootLog_commands, updateBootLog_identifierFlags,
    updateBootLog_identifierFlags]
  rfl

/-! ### The identifier filter -/

theorem updateBootLog_sets (s : ShowBootLog) (keepIdentifiers : Bool) :
    (s.updateBootLog keepIdentifiers).acceptedIdentifiers
        = (if keepIdentifiers then s.acceptedIdentifiers else QSet.clear)
      ∧ (s.updateBootLog keepIdentifiers).allIdentifiers
        = (if keepIdentifiers then s.allIdentifiers else QSet.clear) := by
  cases keepIdentifiers <;> exact ⟨rfl, rfl⟩

theorem occurs_once_of_nodup (l : List QString) (a : QString) (hn : l.Nodup) (ha : a ∈ l) :
    (l.filter (fun x => x = a)).length = 1 := by
  induction l with
  | nil => cases ha
  | cons x xs ih =>
    rw [List.nodup_cons] at hn
    by_cases hx : x = a
    · subst hx
      have h0 : xs.filter (fun y => y = x) = [] := by
        rw [List.filter_eq_nil_iff]
        intro y hy h
        exact hn.1 (of_decide_eq_true h ▸ hy)
      simp [List.filter_cons, h0]
    · have h1 : a ∈ xs := by
        rcases List.mem_cons.mp ha with h | h
        · exact absurd h.symm hx
        · exact h
      simp [List.filter_cons, hx, ih hn.2 h1]

/-- C4: `updateBootLog(true)` leaves `acceptedIdentifiers` and `allIdentifiers` as they
were and sets `identifierFlags` to the concatenation of ` -t ` + id over the accepted
identifiers, each of which is visited exactly once; `updateBootLog(false)` leaves both
sets empty and `identifierFlags` empty, and the command it runs ends where the
identifier flags would start. -/
theorem updateBootLog_identifiers (s : ShowBootLog) :
    ((s.updateBootLog true).acceptedIdentifiers = s.acceptedIdentifiers
      ∧ (s.updateBootLog true).allIdentifiers = s.allIdentifiers
      ∧ (s.updateBootLog true).identifierFlags
          = s.acceptedIdentifiers.values.flatMap (fun identifier => " -t ".toList ++ identifier)
      ∧ ∀ identifier, s.acceptedIdentifiers.contains identifier = true →
          (s.acceptedIdentifiers.values.filter (fun x => x = identifier)).length = 1)
    ∧ ((s.updateBootLog false).acceptedIdentifiers.values = []
      ∧ (s.updateBootLog false).allIdentifiers.values = []
      ∧ (s.updateBootLog false).identifierFlags = []
      ∧ (s.updateBootLog false).connection.commands
          = s.connection.commands ++ [specCommand s []]) := by
  refine ⟨⟨rfl, rfl, ?_, ?_⟩, rfl, rfl, rfl, ?_⟩
  · rw [updateBootLog_identifierFlags]; rfl
  · intro identifier h
    exact occurs_once_of_nodup _ _ s.acceptedIdentifiers.nodup (of_decide_eq_true h)
  · rw [updateBootLog_commands, updateBootLog_identifierFlags]; rfl

/-- Witness of `updateBootLog_identifiers`: two accepted identifiers. -/
theorem updateBootLog_identifiers_witness :
    ((({ initialDialog false false false "0".toList with
          acceptedIdentifiers := (QSet.clear.insert "sshd".toList).insert "cron".toList
        }).updateBootLog true).identifierFlags = " -t sshd -t cron".toList)
      ∧ ((((QSet.clear.insert "sshd".toList).insert "cron".toList).values.filter
            (fun x => x = "cron".toList)).length = 1) :=
  ⟨by decide,
   (updateBootLog_identifiers ({ initialDialog false false false "0".toList with
      acceptedIdentifiers := (QSet.clear.insert "sshd".toList).insert "cron".toList })).1.2.2.2
      "cron".toList (by decide)⟩

/-! ### The unit selector -/

theorem unitLoop_eq (unities : List QString) (unitOption : QString) :
    unitLoop (unities.map some ++ [none]) unitOption
      = unitOption ++ unities.flatMap (fun name => " -u ".toList ++ name) := by
  induction unities generalizing unitOption with
  | nil => simp [unitLoop]
  | cons name rest ih =>
    show unitLoop (rest.map some ++ [none]) ((unitOption ++ " -u ".toList) ++ name) = _
    rw [ih]
    simp only [List.flatMap_cons, List.append_assoc]

theorem updateBootLog_unitOption (s : ShowBootLog) (keepIdentifiers : Bool) :
    (s.updateBootLog keepIdentifiers).unitOption = s.unitOption := by
  cases keepIdentifiers <;> rfl

/-- C5: `on_unitCombo_currentTextChanged(unit)` sets `unitOption` to the empty string for
the unit `all`, to the concatenation of ` -u ` + name over the entries of the unit table
after its first two, in table order, for the unit `vigil all`, and to ` -u ` + unit for
every other unit; the table entries after the first two are the entries of `unities.h`;
the value of `unitOption` before the call does not matter. -/
theorem on_unitCombo_currentTextChanged_unitOption (unities : List QString) (s : ShowBootLog)
    (unit : QString) :
    (s.on_unitCombo_currentTextChanged unities unit).unitOption
        = (if unit = "all".toList then []
           else if unit = "vigil all".toList then
             unities.flatMap (fun name => " -u ".toList ++ name)
           else " -u ".toList ++ unit)
      ∧ (unties unities).drop 2 = unities.map some ++ [none]
      ∧ ∀ previous : QString,
          (ShowBootLog.on_unitCombo_currentTextChanged unities
              { s with unitOption := previous } unit).unitOption
            = (s.on_unitCombo_currentTextChanged unities unit).unitOption := by
  have key : ∀ t : ShowBootLog, (t.on_unitCombo_currentTextChanged unities unit).unitOption
      = (if unit = "all".toList then []
         else if unit = "vigil all".toList then
           unities.flatMap (fun name => " -u ".toList ++ name)
         else " -u ".toList ++ unit) := by
    intro t
    unfold ShowBootLog.on_unitCombo_currentTextChanged
    rw [updateBootLog_unitOption]
    show (if unit = "vigil all".toList then unitLoop (unities.map some ++ [none]) []
          else if unit ≠ "all".toList then ([] ++ " -u ".toList) ++ unit else []) = _
    by_cases h1 : unit = "vigil all".toList
    · have h2 : ¬ unit = "all".toList := by rw [h1]; decide
      rw [if_pos h1, if_neg h2, if_pos h1, unitLoop_eq]; rfl
    · by_cases h2 : unit = "all".toList
      · rw [if_neg h1, if_pos h2, if_neg (not_not.mpr h2)]
      · rw [if_neg h1, if_neg h2, if_neg h1, if_pos h2]; rfl
  exact ⟨key s, rfl, fun previous => by rw [key, key]⟩

/-! ### The receive path -/

theorem lastIndexOf_ge (s : QString) (c : Char) : -1 ≤ QString.lastIndexOf s c := by
  induction s with
  | nil => simp [QString.lastIndexOf]
  | cons x xs ih =>
    unfold QString.lastIndexOf
    split_ifs <;> omega

theorem lastIndexOf_of_not_mem (s : QString) (c : Char) (h : c ∉ s) :
    QString.lastIndexOf s c = -1 := by
  induction s with
  | nil => rfl
  | cons x xs ih =>
    rw [List.mem_cons, not_or] at h
    unfold QString.lastIndexOf
    rw [ih h.2]
    simp [Ne.symm h.1]

theorem lastIndexOf_append_cons (pre post : QString) (c : Char) (h : c ∉ post) :
    QString.lastIndexOf (pre ++ c :: post) c = pre.length := by
  induction pre with
  | nil =>
    show QString.lastIndexOf (c :: post) c = _
    unfold QString.lastIndexOf
    rw [lastIndexOf_of_not_mem post c h]
    simp
  | cons x xs ih =>
    show QString.lastIndexOf (x :: (xs ++ c :: post)) c = _
    unfold QString.lastIndexOf
    rw [ih]
    simp

theorem exists_last_newline (t : QString) (h : '\n' ∈ t) :
    ∃ x y : QString, t = x ++ '\n' :: y ∧ '\n' ∉ y := by
  induction t with
  | nil => cases h
  | cons c t ih =>
    by_cases ht : '\n' ∈ t
    · obtain ⟨x, y, hxy, hy⟩ := ih ht
      exact ⟨c :: x, y, by rw [hxy]; rfl, hy⟩
    · rcases List.mem_cons.mp h with h1 | h1
      · exact ⟨[], t, by rw [h1]; rfl, ht⟩
      · exact absurd h1 ht

theorem readLinesFrom_cons (cur : QString) (c : Char) (rest : QString) :
    readLinesFrom cur (c :: rest)
      = if c = '\n' then stripCR cur :: readLinesFrom [] rest
        else readLinesFrom (cur ++ [c]) rest := rfl

theorem readLinesFrom_append_newline (cur x y : QString) :
    readLinesFrom cur (x ++ '\n' :: y)
      = readLinesFrom cur (x ++ ['\n']) ++ readLinesFrom [] y := by
  induction x generalizing cur with
  | nil => simp [readLinesFrom]
  | cons c x ih =>
    rw [List.cons_append, List.cons_append, readLinesFrom_cons, readLinesFrom_cons]
    split_ifs
    · rw [ih]; rfl
    · rw [ih]

theorem readLinesFrom_newline_filter (cur x : QString) :
    (readLinesFrom cur (x ++ ['\n'])).filter (fun line => line ≠ [])
      = (readLinesFrom cur x).filter (fun line => line ≠ []) := by
  induction x generalizing cur with
  | nil =>
    by_cases h : cur = []
    · subst h; simp [readLinesFrom, stripCR]
    · simp [readLinesFrom, h]
  | cons c x ih =>
    rw [List.cons_append, readLinesFrom_cons, readLinesFrom_cons]
    split_ifs
    · rw [List.filter_cons, List.filter_cons, ih]
    · rw [ih]

theorem indexOf_nonneg_iff (s sub : QString) : 0 ≤ QString.indexOf s sub ↔ sub <:+: s := by
  induction s with
  | nil =>
    unfold QString.indexOf
    by_cases h : sub = []
    · simp [h]
    · simp [h]
  | cons x xs ih =>
    unfold QString.indexOf
    rw [List.infix_cons_iff]
    by_cases hp : sub.isPrefixOf (x :: xs) = true
    · rw [if_pos hp]
      exact iff_of_true (le_refl 0) (Or.inl (List.isPrefixOf_iff_prefix.mp hp))
    · rw [if_neg hp]
      have hp2 : ¬ sub <+: x :: xs := fun h => hp (List.isPrefixOf_iff_prefix.mpr h)
      by_cases hi : 0 ≤ QString.indexOf xs sub
      · rw [if_pos hi]
        exact iff_of_true (by omega) (Or.inr (ih.mp hi))
      · rw [if_neg hi]
        exact iff_of_false (by omega) (fun h => h.elim hp2 (fun h2 => hi (ih.mpr h2)))

theorem grepLine_eq (toLower : QString → QString) (case_s : Bool) (f toDisplay line : QString) :
    grepLine toLower case_s f toDisplay line
      = toDisplay ++ (if line ≠ [] ∧ containsFilter toLower case_s f line then
          line ++ "\n".toList else []) := by
  unfold grepLine containsFilter
  by_cases h0 : line = []
  · subst h0; simp
  · have h1 : ¬ line.length = 0 := fun h => h0 (List.length_eq_zero.mp h)
    rw [if_neg h1]
    cases case_s
    · simp only [Bool.false_eq_true, if_false, indexOf_nonneg_iff]
      split_ifs <;> simp_all
    · simp only [if_true, indexOf_nonneg_iff]
      split_ifs <;> simp_all

theorem foldl_grepLine (toLower : QString → QString) (case_s : Bool) (f : QString)
    (lines : List QString) (toDisplay : QString) :
    lines.foldl (grepLine toLower case_s f) toDisplay
      = toDisplay ++ joinLines (lines.filter
          (fun line => line ≠ [] ∧ containsFilter toLower case_s f line)) := by
  induction lines generalizing toDisplay with
  | nil => simp [joinLines]
  | cons line lines ih =>
    rw [List.foldl_cons, ih, grepLine_eq, List.filter_cons]
    by_cases h : line ≠ [] ∧ containsFilter toLower case_s f line
    · simp [h, joinLines, List.flatMap_cons]
    · simp [h, joinLines]

theorem selectedLines_newline (toLower : QString → QString) (case_s : Bool) (f t : QString) :
    selectedLines toLower case_s f (t ++ ['\n']) = selectedLines toLower case_s f t := by
  have h : ∀ l : List QString,
      l.filter (fun line => line ≠ [] ∧ containsFilter toLower case_s f line)
        = (l.filter (fun line => line ≠ [])).filter
            (fun line => containsFilter toLower case_s f line) := by
    intro l
    rw [List.filter_filter]
    congr 1
    funext line
    by_cases h1 : line = [] <;> by_cases h2 : containsFilter toLower case_s f line <;>
      simp [h1, h2]
  unfold selectedLines readLines
  rw [h, h, readLinesFrom_newline_filter]

theorem joined_eq (p t : QString) :
    (if p.length > 0 then (p ++ t, ([] : QString)) else (t, p)) = (p ++ t, ([] : QString)) := by
  cases p <;> simp

theorem grepFilter_of_newline (toLower : QString → QString) (case_s : Bool)
    (f p x y : QString) (hy : '\n' ∉ y) :
    (grepFilter toLower case_s f p (x ++ '\n' :: y)).toDisplay
        = joinLines (selectedLines toLower case_s f (p ++ x ++ ['\n']))
      ∧ (grepFilter toLower case_s f p (x ++ '\n' :: y)).grepIncompleteLine = y
      ∧ (grepFilter toLower case_s f p (x ++ '\n' :: y)).readString
        = (if y = [] then p ++ x ++ ['\n'] else p ++ x) := by
  have hidx : QString.lastIndexOf (p ++ (x ++ '\n' :: y)) '\n' = ((p ++ x).length : Int) := by
    rw [← List.append_assoc]; exact lastIndexOf_append_cons (p ++ x) y '\n' hy
  have hlen : ((p ++ (x ++ '\n' :: y)).length : Int) = (p ++ x).length + 1 + y.length := by
    simp only [List.length_append, List.length_cons]; push_cast; omega
  have hcut : (if QString.lastIndexOf (p ++ (x ++ '\n' :: y)) '\n' < 0 then
        (p ++ (x ++ '\n' :: y), ([] : QString) ++ (p ++ (x ++ '\n' :: y)))
      else if QString.lastIndexOf (p ++ (x ++ '\n' :: y)) '\n'
          = ((p ++ (x ++ '\n' :: y)).length : Int) - 1 then
        (p ++ (x ++ '\n' :: y), ([] : QString))
      else (QString.midTo (p ++ (x ++ '\n' :: y))
              (QString.lastIndexOf (p ++ (x ++ '\n' :: y)) '\n'),
            QString.midFrom (p ++ (x ++ '\n' :: y))
              (QString.lastIndexOf (p ++ (x ++ '\n' :: y)) '\n' + 1)))
      = ((if y = [] then p ++ x ++ ['\n'] else p ++ x), y) := by
    rw [hidx, hlen]
    have h0 : ¬ (((p ++ x).length : Int) < 0) := by omega
    rw [if_neg h0]
    by_cases hyn : y = []
    · subst hyn
      simp
    · have h1 : ¬ (((p ++ x).length : Int) = (p ++ x).length + 1 + y.length - 1) := by
        have : 0 < y.length := List.length_pos.mpr hyn
        omega
      rw [if_neg h1, if_neg hyn]
      have e : p ++ (x ++ '\n' :: y) = (p ++ x) ++ '\n' :: y := by simp
      unfold QString.midTo QString.midFrom
      rw [if_neg h0, e]
      congr 1
      · rw [Int.toNat_natCast, List.take_append_of_le_length (le_refl _), List.take_length]
      · have : (((p ++ x).length : Int) + 1).toNat = (p ++ x).length + 1 := by omega
        rw [this, List.drop_append_eq_append_drop]
        simp
  have hstep : grepFilter toLower case_s f p (x ++ '\n' :: y)
      = { readString := (if y = [] then p ++ x ++ ['\n'] else p ++ x)
          grepIncompleteLine := y
          toDisplay := (readLines (if y = [] then p ++ x ++ ['\n'] else p ++ x)).foldl
            (grepLine toLower case_s f) [] } := by
    unfold grepFilter
    simp only [joined_eq, hcut]
  rw [hstep]
  refine ⟨?_, rfl, rfl⟩
  show List.foldl _ _ _ = _
  rw [foldl_grepLine, List.nil_append]
  by_cases hyn : y = []
  · rw [if_pos hyn]; rfl
  · rw [if_neg hyn, selectedLines_newline]; rfl

theorem received_of_filter (toLower : QString → QString) (s : ShowBootLog) (chunk : QString)
    (hf : s.grepFilterText ≠ []) :
    s.received toLower chunk
      = { grepFilter toLower s.ui.caseCheckBox s.grepFilterText s.grepIncompleteLine chunk with
          toDisplay := QString.trimmed (grepFilter toLower s.ui.caseCheckBox s.grepFilterText
            s.grepIncompleteLine chunk).toDisplay } := by
  have h : s.grepFilterText.length > 0 := List.length_pos.mpr hf
  unfold ShowBootLog.received
  rw [if_pos h]

theorem appendToBootLog_received (toLower : QString → QString) (s : ShowBootLog)
    (chunk : QString) :
    (s.appendToBootLog toLower chunk).grepIncompleteLine
        = (s.received toLower chunk).grepIncompleteLine
      ∧ (s.appendToBootLog toLower chunk).ui.plainTextEdit
        = appendPlainText (if s.empty then [] else s.ui.plainTextEdit)
            (s.received toLower chunk).toDisplay
      ∧ (s.appendToBootLog toLower chunk).numberOfBytesRead
        = s.numberOfBytesRead + (s.received toLower chunk).readString.length
      ∧ (s.appendToBootLog toLower chunk).allIdentifiers
        = s.allIdentifiers.unite (globalMatch (s.received toLower chunk).readString)
      ∧ (s.appendToBootLog toLower chunk).grepFilterText = s.grepFilterText
      ∧ (s.appendToBootLog toLower chunk).ui.caseCheckBox = s.ui.caseCheckBox := by
  cases h : s.empty <;> simp [ShowBootLog.appendToBootLog, ShowBootLog.received, h]

theorem joinLines_ne_nil (line : QString) (rest : List QString) :
    joinLines (line :: rest) = unlines (line :: rest) ++ ['\n'] := by
  induction rest generalizing line with
  | nil => simp [joinLines, unlines]
  | cons l2 rest ih =>
    have h : joinLines (line :: l2 :: rest) = line ++ '\n' :: joinLines (l2 :: rest) := by
      simp [joinLines, List.flatMap_cons]
    rw [h, ih]
    simp [unlines]

theorem unlines_getLast (lines : List QString) (line : QString) (d : Char)
    (h1 : lines.getLast? = some line) (h2 : line.getLast? = some d) :
    ∃ body, unlines lines = body ++ [d] := by
  induction lines with
  | nil => simp at h1
  | cons l rest ih =>
    cases rest with
    | nil =>
      simp only [List.getLast?_singleton, Option.some.injEq] at h1
      subst h1
      obtain ⟨body, hb⟩ : ∃ body, l = body ++ [d] := by
        rw [List.getLast?_eq_some_iff] at h2
        exact h2
      exact ⟨body, by simpa [unlines] using hb⟩
    | cons l2 rest =>
      rw [List.getLast?_cons_cons] at h1
      obtain ⟨body, hb⟩ := ih h1
      exact ⟨l ++ '\n' :: body, by simp [unlines, hb]⟩

theorem trimmed_joinLines (lines : List QString)
    (hne : ∀ line ∈ lines, line ≠ [])
    (hfirst : ∀ line c, lines.head? = some line → line.head? = some c →
      QString.isSpace c = false)
    (hlast : ∀ line c, lines.getLast? = some line → line.getLast? = some c →
      QString.isSpace c = false) :
    QString.trimmed (joinLines lines) = unlines lines := by
  cases lines with
  | nil => rfl
  | cons l rest =>
    rw [joinLines_ne_nil]
    have hl : l ≠ [] := hne l (List.mem_cons_self _ _)
    obtain ⟨c, l1, rfl⟩ : ∃ c l1, l = c :: l1 := List.exists_cons_of_ne_nil hl
    have hc : QString.isSpace c = false := hfirst (c :: l1) c rfl rfl
    obtain ⟨last, hlastline⟩ : ∃ last, ((c :: l1) :: rest).getLast? = some last := by
      cases h : ((c :: l1) :: rest).getLast? with
      | none => simp at h
      | some v => exact ⟨v, rfl⟩
    have hlastne : last ≠ [] := hne last (List.mem_of_getLast?_eq_some hlastline)
    obtain ⟨d, hd⟩ : ∃ d, last.getLast? = some d := by
      cases h : last.getLast? with
      | none => exact absurd (List.getLast?_eq_none_iff.mp h) hlastne
      | some v => exact ⟨v, rfl⟩
    have hdsp : QString.isSpace d = false := hlast last d hlastline hd
    obtain ⟨body, hb⟩ := unlines_getLast _ _ _ hlastline hd
    have hhead : ∃ tl, unlines ((c :: l1) :: rest) = c :: tl := by
      cases rest with
      | nil => exact ⟨l1, rfl⟩
      | cons l2 rest => exact ⟨_, rfl⟩
    obtain ⟨tl, htl⟩ := hhead
    unfold QString.trimmed
    have hdw : List.dropWhile QString.isSpace (unlines ((c :: l1) :: rest) ++ ['\n'])
        = unlines ((c :: l1) :: rest) ++ ['\n'] := by
      rw [htl, List.cons_append, List.dropWhile_cons_of_neg (by simp [hc])]
    rw [hdw, List.rdropWhile_concat_pos _ _ _ (by decide), hb,
      List.rdropWhile_concat_neg _ _ _ (by simp [hdsp])]

theorem selectedLines_eq_filter (toLower : QString → QString) (case_s : Bool)
    (f text : QString) (hf : f ≠ [])
    (h : case_s = true ∨ (toLower [] = [] ∧ toLower f ≠ [])) :
    selectedLines toLower case_s f text
      = (readLines text).filter (fun line => containsFilter toLower case_s f line) := by
  unfold selectedLines
  apply List.filter_congr
  intro line _
  by_cases hl : line = []
  · subst hl
    have : ¬ containsFilter toLower case_s f [] := by
      unfold containsFilter
      rcases h with h | h
      · rw [if_pos h, List.infix_nil]; exact hf
      · split_ifs
        · rw [List.infix_nil]; exact hf
        · rw [h.1, List.infix_nil]; exact h.2
    simp [this]
  · simp [hl]

/-- C2, as the code has it: for a non-empty filter text, no pending line and a chunk
that ends in a newline, the text handed to the text view is the trimmed concatenation
of the non-empty lines of the chunk that contain the filter text, each followed by a
newline, in their order; nothing stays pending. These are exactly the lines that
contain the filter text (for the comparison after lower-casing: when lower-casing keeps
the empty string empty and the filter text non-empty). The shown lines are unchanged
when the first one does not start and the last one does not end with white space. -/
theorem appendToBootLog_grep_complete_lines (toLower : QString → QString) (s : ShowBootLog)
    (body : QString) (hf : s.grepFilterText ≠ []) (hp : s.grepIncompleteLine = []) :
    (s.received toLower (body ++ ['\n'])).toDisplay
        = QString.trimmed (joinLines
            (selectedLines toLower s.ui.caseCheckBox s.grepFilterText (body ++ ['\n'])))
      ∧ (s.appendToBootLog toLower (body ++ ['\n'])).ui.plainTextEdit
        = appendPlainText (if s.empty then [] else s.ui.plainTextEdit)
            (QString.trimmed (joinLines
              (selectedLines toLower s.ui.caseCheckBox s.grepFilterText (body ++ ['\n']))))
      ∧ (s.appendToBootLog toLower (body ++ ['\n'])).grepIncompleteLine = []
      ∧ ((s.ui.caseCheckBox = true ∨ (toLower [] = [] ∧ toLower s.grepFilterText ≠ [])) →
          selectedLines toLower s.ui.caseCheckBox s.grepFilterText (body ++ ['\n'])
            = (readLines (body ++ ['\n'])).filter
                (fun line => containsFilter toLower s.ui.caseCheckBox s.grepFilterText line))
      ∧ ((∀ line c,
            (selectedLines toLower s.ui.caseCheckBox s.grepFilterText (body ++ ['\n'])).head?
              = some line → line.head? = some c → QString.isSpace c = false) →
          (∀ line c,
            (selectedLines toLower s.ui.caseCheckBox s.grepFilterText
              (body ++ ['\n'])).getLast? = some line →
            line.getLast? = some c → QString.isSpace c = false) →
          QString.trimmed (joinLines
              (selectedLines toLower s.ui.caseCheckBox s.grepFilterText (body ++ ['\n'])))
            = unlines
                (selectedLines toLower s.ui.caseCheckBox s.grepFilterText (body ++ ['\n']))) := by
  have hg := grepFilter_of_newline toLower s.ui.caseCheckBox s.grepFilterText [] body []
    (List.not_mem_nil _)
  have hr : (s.received toLower (body ++ ['\n'])).toDisplay
      = QString.trimmed (joinLines
          (selectedLines toLower s.ui.caseCheckBox s.grepFilterText (body ++ ['\n']))) := by
    rw [received_of_filter toLower s _ hf, hp]
    show QString.trimmed _ = _
    rw [hg.1]; rfl
  have hpend : (s.received toLower (body ++ ['\n'])).grepIncompleteLine = [] := by
    rw [received_of_filter toLower s _ hf, hp]
    exact hg.2.1
  have ha := appendToBootLog_received toLower s (body ++ ['\n'])
  refine ⟨hr, ?_, ?_, ?_, ?_⟩
  · rw [ha.2.1, hr]
  · rw [ha.1, hpend]
  · exact selectedLines_eq_filter toLower _ _ _ hf
  · intro h1 h2
    apply trimmed_joinLines _ _ h1 h2
    intro line hl
    unfold selectedLines at hl
    have := (List.mem_filter.mp hl).2
    simp only [decide_eq_true_eq] at this
    exact this.1

/-- Witness of `appendToBootLog_grep_complete_lines`: two of three lines contain the
filter text. -/
theorem appendToBootLog_grep_complete_lines_witness :
    grepDialog.grepFilterText ≠ [] ∧ grepDialog.grepIncompleteLine = []
      ∧ (grepDialog.appendToBootLog QString.toLowerAscii
          ("a foo\nbar\nfoo b".toList ++ ['\n'])).ui.plainTextEdit = "a foo\nfoo b".toList :=
  ⟨by decide, by decide,
   ((appendToBootLog_grep_complete_lines QString.toLowerAscii grepDialog "a foo\nbar\nfoo b".toList
      (by decide) (by decide)).2.1).trans (by decide)⟩

/-- C2 as stated fails: with the filter `foo` and the chunk ` foo` + newline, the line
that contains the filter text is ` foo`, and the text handed to the text view is `foo`:
the white space at the start of the line is gone. -/
theorem appendToBootLog_grep_line_changed :
    grepDialog.grepFilterText ≠ [] ∧ grepDialog.grepIncompleteLine = []
      ∧ (" foo\n".toList).getLast? = some '\n'
      ∧ (readLines " foo\n".toList).filter
          (fun line => containsFilter QString.toLowerAscii grepDialog.ui.caseCheckBox
            grepDialog.grepFilterText line) = [" foo".toList]
      ∧ (grepDialog.received QString.toLowerAscii " foo\n".toList).toDisplay = "foo".toList
      ∧ readLines (grepDialog.received QString.toLowerAscii " foo\n".toList).toDisplay
          ≠ (readLines " foo\n".toList).filter
              (fun line => containsFilter QString.toLowerAscii grepDialog.ui.caseCheckBox
                grepDialog.grepFilterText line) := by
  decide

theorem received_pending (toLower : QString → QString) (s : ShowBootLog) (chunk : QString)
    (hf : s.grepFilterText ≠ []) :
    (s.received toLower chunk).grepIncompleteLine
      = (grepFilter toLower s.ui.caseCheckBox s.grepFilterText s.grepIncompleteLine
          chunk).grepIncompleteLine := by
  rw [received_of_filter toLower s chunk hf]

theorem selectedLines_split (toLower : QString → QString) (case_s : Bool)
    (f x y : QString) :
    selectedLines toLower case_s f (x ++ '\n' :: y)
      = selectedLines toLower case_s f (x ++ ['\n']) ++ selectedLines toLower case_s f y := by
  unfold selectedLines readLines
  rw [readLinesFrom_append_newline, List.filter_append]

theorem joinLines_append (l1 l2 : List QString) :
    joinLines (l1 ++ l2) = joinLines l1 ++ joinLines l2 := by
  unfold joinLines
  exact List.flatMap_append _ _ _

/-- C8, as the code has it: with a non-empty filter text and two chunks `a` and `b`
that each contain a newline, the filter branch selects from `a` and then from `b`
together the same text as from `a ++ b` in one chunk, namely the non-empty lines that
contain the filter text among the complete lines of the pending line followed by
`a ++ b`, each once and whole; every call hands its selection to the text view after
trimming it; the line left pending is the same in both cases. -/
theorem appendToBootLog_grep_split (toLower : QString → QString) (s : ShowBootLog)
    (a b : QString) (hf : s.grepFilterText ≠ []) (ha : '\n' ∈ a) (hb : '\n' ∈ b) :
    (grepFilter toLower s.ui.caseCheckBox s.grepFilterText s.grepIncompleteLine a).toDisplay
        ++ (grepFilter toLower s.ui.caseCheckBox s.grepFilterText
              (s.appendToBootLog toLower a).grepIncompleteLine b).toDisplay
        = (grepFilter toLower s.ui.caseCheckBox s.grepFilterText s.grepIncompleteLine
            (a ++ b)).toDisplay
      ∧ (s.received toLower a).toDisplay
          = QString.trimmed (grepFilter toLower s.ui.caseCheckBox s.grepFilterText
              s.grepIncompleteLine a).toDisplay
      ∧ ((s.appendToBootLog toLower a).received toLower b).toDisplay
          = QString.trimmed (grepFilter toLower s.ui.caseCheckBox s.grepFilterText
              (s.appendToBootLog toLower a).grepIncompleteLine b).toDisplay
      ∧ (s.received toLower (a ++ b)).toDisplay
          = QString.trimmed (grepFilter toLower s.ui.caseCheckBox s.grepFilterText
              s.grepIncompleteLine (a ++ b)).toDisplay
      ∧ ((s.appendToBootLog toLower a).appendToBootLog toLower b).grepIncompleteLine
          = (s.appendToBootLog toLower (a ++ b)).grepIncompleteLine
      ∧ ∃ whole rest : QString,
          s.grepIncompleteLine ++ (a ++ b) = whole ++ rest ∧ '\n' ∉ rest
            ∧ whole.getLast? = some '\n'
            ∧ (grepFilter toLower s.ui.caseCheckBox s.grepFilterText s.grepIncompleteLine
                (a ++ b)).toDisplay
              = joinLines (selectedLines toLower s.ui.caseCheckBox s.grepFilterText whole) := by
  obtain ⟨xa, ya, rfl, hya⟩ := exists_last_newline a ha
  obtain ⟨xb, yb, rfl, hyb⟩ := exists_last_newline b hb
  have s1 := appendToBootLog_received toLower s (xa ++ '\n' :: ya)
  have r1 := received_of_filter toLower s (xa ++ '\n' :: ya) hf
  have hf1 : (s.appendToBootLog toLower (xa ++ '\n' :: ya)).grepFilterText ≠ [] := by
    rw [s1.2.2.2.2.1]; exact hf
  have ga := grepFilter_of_newline toLower s.ui.caseCheckBox s.grepFilterText
    s.grepIncompleteLine xa ya hya
  have gb := grepFilter_of_newline toLower s.ui.caseCheckBox s.grepFilterText ya xb yb hyb
  have eab : (xa ++ '\n' :: ya) ++ (xb ++ '\n' :: yb) = (xa ++ '\n' :: (ya ++ xb)) ++ '\n' :: yb := by
    simp
  have gs := grepFilter_of_newline toLower s.ui.caseCheckBox s.grepFilterText
    s.grepIncompleteLine (xa ++ '\n' :: (ya ++ xb)) yb hyb
  have p1 : (s.appendToBootLog toLower (xa ++ '\n' :: ya)).grepIncompleteLine = ya := by
    rw [s1.1, r1]; exact ga.2.1
  have hsel : selectedLines toLower s.ui.caseCheckBox s.grepFilterText
        (s.grepIncompleteLine ++ (xa ++ '\n' :: (ya ++ xb)) ++ ['\n'])
      = selectedLines toLower s.ui.caseCheckBox s.grepFilterText
          (s.grepIncompleteLine ++ xa ++ ['\n'])
        ++ selectedLines toLower s.ui.caseCheckBox s.grepFilterText (ya ++ xb ++ ['\n']) := by
    have e : s.grepIncompleteLine ++ (xa ++ '\n' :: (ya ++ xb)) ++ ['\n']
        = (s.grepIncompleteLine ++ xa) ++ '\n' :: (ya ++ xb ++ ['\n']) := by simp
    rw [e, selectedLines_split]
  refine ⟨?_, ?_, ?_, ?_, ?_, ?_⟩
  · rw [p1, eab, ga.1, gb.1, gs.1, hsel, joinLines_append]
  · rw [r1]
  · rw [received_of_filter toLower _ _ hf1, s1.2.2.2.2.1, s1.2.2.2.2.2]
  · rw [received_of_filter toLower s _ hf]
  · have s2 := appendToBootLog_received toLower (s.appendToBootLog toLower (xa ++ '\n' :: ya))
      (xb ++ '\n' :: yb)
    have s3 := appendToBootLog_received toLower s ((xa ++ '\n' :: ya) ++ (xb ++ '\n' :: yb))
    rw [s2.1, s3.1, received_pending toLower _ _ hf1, received_pending toLower s _ hf,
      s1.2.2.2.2.1, s1.2.2.2.2.2, p1, gb.2.1, eab, gs.2.1]
  · refine ⟨s.grepIncompleteLine ++ (xa ++ '\n' :: (ya ++ xb)) ++ ['\n'], yb, ?_, hyb, ?_, ?_⟩
    · simp
    · exact List.getLast?_concat _
    · rw [eab, gs.1]

/-- Witness of `appendToBootLog_grep_split`: the line `foo bar` arrives in two pieces. -/
theorem appendToBootLog_grep_split_witness :
    grepDialog.grepFilterText ≠ [] ∧ '\n' ∈ "x\nfoo b".toList ∧ '\n' ∈ "ar\ny\n".toList
      ∧ (grepFilter QString.toLowerAscii grepDialog.ui.caseCheckBox grepDialog.grepFilterText
            grepDialog.grepIncompleteLine ("x\nfoo b".toList ++ "ar\ny\n".toList)).toDisplay
          = "foo bar\n".toList :=
  ⟨by decide, by decide, by decide,
   ((appendToBootLog_grep_split QString.toLowerAscii grepDialog "x\nfoo b".toList
      "ar\ny\n".toList (by decide) (by decide) (by decide)).1).symm.trans (by decide)⟩

/-- C8 as stated fails. With the filter `foo`: the output ` foo` + newline + ` foo` +
newline shows the lines `foo`, ` foo` when it arrives in one chunk and `foo`, `foo` when
it is cut after the first newline (each appended text is trimmed); and the output
`foo bar` + newline cut after `foo b` shows `foo b` and then `foo bar`, where one chunk
shows `foo bar` only (a chunk without a newline is kept as the pending line and is
also run through the filter loop). -/
theorem appendToBootLog_grep_depends_on_chunks :
    ((grepDialog.appendToBootLog QString.toLowerAscii
          (" foo\n".toList ++ " foo\n".toList)).ui.plainTextEdit = "foo\n foo".toList
      ∧ ((grepDialog.appendToBootLog QString.toLowerAscii " foo\n".toList).appendToBootLog
          QString.toLowerAscii " foo\n".toList).ui.plainTextEdit = "foo\nfoo".toList)
    ∧ ((grepDialog.appendToBootLog QString.toLowerAscii
          ("foo b".toList ++ "ar\n".toList)).ui.plainTextEdit = "foo bar".toList
      ∧ ((grepDialog.appendToBootLog QString.toLowerAscii "foo b".toList).appendToBootLog
          QString.toLowerAscii "ar\n".toList).ui.plainTextEdit = "foo b\nfoo bar".toList) := by
  decide

/-! ### The byte counter -/

theorem updateBootLog_receive_state (s : ShowBootLog) (keepIdentifiers : Bool) :
    (s.updateBootLog keepIdentifiers).empty = true
      ∧ (s.updateBootLog keepIdentifiers).numberOfBytesRead = 0
      ∧ (s.updateBootLog keepIdentifiers).grepIncompleteLine = s.grepIncompleteLine
      ∧ (s.updateBootLog keepIdentifiers).grepFilterText = s.grepFilterText := by
  cases keepIdentifiers <;> exact ⟨rfl, rfl, rfl, rfl⟩

theorem appendToBootLog_unfiltered (toLower : QString → QString) (s : ShowBootLog)
    (chunk : QString) (hf : s.grepFilterText = []) :
    (s.appendToBootLog toLower chunk).numberOfBytesRead = s.numberOfBytesRead + chunk.length
      ∧ (s.appendToBootLog toLower chunk).grepFilterText = [] := by
  have h := appendToBootLog_received toLower s chunk
  have hr : (s.received toLower chunk).readString = chunk := by
    unfold ShowBootLog.received
    simp [hf]
  exact ⟨by rw [h.2.2.1, hr], by rw [h.2.2.2.2.1, hf]⟩

/-- Without a grep filter the counter is the number of code units received: after
`updateBootLog` and any sequence of chunks, `numberOfBytesRead` is the sum of the
lengths of the chunks. -/
theorem numberOfBytesRead_unfiltered (toLower : QString → QString) (s : ShowBootLog)
    (keepIdentifiers : Bool) (chunks : List QString) (hf : s.grepFilterText = []) :
    (chunks.foldl (ShowBootLog.appendToBootLog toLower)
        (s.updateBootLog keepIdentifiers)).numberOfBytesRead
      = (chunks.map List.length).sum := by
  have key : ∀ (cs : List QString) (t : ShowBootLog), t.grepFilterText = [] →
      (cs.foldl (ShowBootLog.appendToBootLog toLower) t).numberOfBytesRead
        = t.numberOfBytesRead + (cs.map List.length).sum := by
    intro cs
    induction cs with
    | nil => intro t _; simp
    | cons c cs ih =>
      intro t ht
      have h := appendToBootLog_unfiltered toLower t c ht
      rw [List.foldl_cons, ih _ h.2, h.1, List.map_cons, List.sum_cons]
      omega
  have h0 := updateBootLog_receive_state s keepIdentifiers
  rw [key chunks _ (by rw [h0.2.2.2, hf]), h0.2.1, Nat.zero_add]

/-- Witness of `numberOfBytesRead_unfiltered`: two chunks, five code units in all. -/
theorem numberOfBytesRead_unfiltered_witness :
    (["ab".toList, "c\nd".toList].foldl (ShowBootLog.appendToBootLog QString.toLowerAscii)
        ((initialDialog false true false "0".toList).updateBootLog true)).numberOfBytesRead
      = 5 :=
  (numberOfBytesRead_unfiltered QString.toLowerAscii (initialDialog false true false "0".toList)
    true ["ab".toList, "c\nd".toList] (by decide)).trans (by decide)

/-- C3 fails with a grep filter: after `updateBootLog`, the chunk `a` + newline + `b`
(3 code units) leaves the counter at 1, and the chunks `ab` and `c` + newline (4 code
units) leave it at 6: the counter adds the size of `readString` after the filter branch
has cut the pending line off it or put the pending line in front of it. -/
theorem numberOfBytesRead_with_filter :
    ((grepDialog.updateBootLog true).appendToBootLog QString.toLowerAscii
        "a\nb".toList).numberOfBytesRead = 1
      ∧ ("a\nb".toList).length = 3
      ∧ (((grepDialog.updateBootLog true).appendToBootLog QString.toLowerAscii
          "ab".toList).appendToBootLog QString.toLowerAscii "c\n".toList).numberOfBytesRead = 6
      ∧ ("ab".toList).length + ("c\n".toList).length = 4 := by
  decide

/-- C9 fails for the pending line: `updateBootLog` sets the empty flag and resets the
counter but leaves `grepIncompleteLine` as it was. With the filter `foo`, the chunk
`old b` stays pending; after `updateBootLog` it is still pending, and the first line
`foo` of the new query is shown as `old bfoo`. -/
theorem updateBootLog_keeps_pending_line :
    (grepDialog.appendToBootLog QString.toLowerAscii "old b".toList).grepIncompleteLine
        = "old b".toList
      ∧ ((grepDialog.appendToBootLog QString.toLowerAscii "old b".toList).updateBootLog
          true).grepIncompleteLine = "old b".toList
      ∧ ((grepDialog.appendToBootLog QString.toLowerAscii "old b".toList).updateBootLog
          true).empty = true
      ∧ ((grepDialog.appendToBootLog QString.toLowerAscii "old b".toList).updateBootLog
          true).numberOfBytesRead = 0
      ∧ (((grepDialog.appendToBootLog QString.toLowerAscii "old b".toList).updateBootLog
          true).appendToBootLog QString.toLowerAscii "foo\n".toList).ui.plainTextEdit
        = "old bfoo".toList := by
  decide

/-! ### The identifier scan -/

theorem takeWhile_dropWhile_stop (p : Char → Bool) (l : QString) (a : Char) (r : QString)
    (hl : ∀ c ∈ l, p c = true) (ha : p a = false) :
    (l ++ a :: r).takeWhile p = l ∧ (l ++ a :: r).dropWhile p = a :: r := by
  induction l with
  | nil => simp [List.takeWhile, List.dropWhile, ha]
  | cons c l ih =>
    have hc : p c = true := hl c (List.mem_cons_self _ _)
    have ih2 := ih (fun d hd => hl d (List.mem_cons_of_mem _ hd))
    simp [List.takeWhile, List.dropWhile, hc, ih2.1, ih2.2]

/-- The matcher accepts every text of the shape of the pattern: a space, a non-empty
identifier, `[`, a non-empty run of digits and `]: `. -/
theorem matchIdentifier_of_shape (identifier digits after : QString)
    (h1 : identifier ≠ []) (h2 : ∀ c ∈ identifier, isIdentifierChar c = true)
    (h3 : digits ≠ []) (h4 : ∀ d ∈ digits, isDigitChar d = true) :
    matchIdentifier (' ' :: (identifier ++ '[' :: (digits ++ ']' :: ':' :: ' ' :: after)))
      = some (identifier, after) := by
  have e1 := takeWhile_dropWhile_stop isIdentifierChar identifier '['
    (digits ++ ']' :: ':' :: ' ' :: after) h2 (by decide)
  have e2 := takeWhile_dropWhile_stop isDigitChar digits ']' (':' :: ' ' :: after) h4
    (by decide)
  unfold matchIdentifier
  simp only [e1.1, e1.2, e2.1, e2.2, if_neg h1, if_neg h3]

/-- Witness of `matchIdentifier_of_shape`. -/
theorem matchIdentifier_of_shape_witness :
    matchIdentifier " cron_1[42]: job".toList = some ("cron_1".toList, "job".toList) :=
  matchIdentifier_of_shape "cron_1".toList "42".toList "job".toList (by decide) (by decide)
    (by decide) (by decide)

/-- The scan resumes after the end of a match: the space that ends the first match
cannot start a second one. -/
theorem globalMatch_resumes_after_match :
    globalMatch " a[1]: b[2]: c[3]: ".toList = ["a".toList, "c".toList] := by
  decide

theorem findFrom_eq_none_iff (fold : Char → Char) (cs : Bool) (document string : QString)
    (start : Nat) :
    findFrom fold cs document string start = none
      ↔ ∀ j, start ≤ j → j ≤ document.length → occursAt fold cs document string j = false := by
  unfold findFrom
  rw [List.find?_eq_none]
  constructor
  · intro h j h1 h2
    have := h j (List.mem_map.mpr ⟨j - start, List.mem_range.mpr (by omega), by omega⟩)
    simpa using this
  · intro h x hx
    obtain ⟨k, hk, rfl⟩ := List.mem_map.mp hx
    have hk2 := List.mem_range.mp hk
    rw [h (start + k) (by omega) (by omega)]
    simp

theorem findFrom_eq_some_iff (fold : Char → Char) (cs : Bool) (document string : QString)
    (start i : Nat) :
    findFrom fold cs document string start = some i
      ↔ occursAt fold cs document string i = true ∧ start ≤ i ∧ i ≤ document.length
          ∧ ∀ j, start ≤ j → j < i → occursAt fold cs document string j = false := by
  unfold findFrom
  rw [List.find?_map]
  constructor
  · intro h
    obtain ⟨k, hk, rfl⟩ := Option.map_eq_some'.mp h
    obtain ⟨h1, h2, h3⟩ := List.find?_range_eq_some.mp hk
    have h2b := List.mem_range.mp h2
    refine ⟨h1, by omega, by omega, ?_⟩
    intro j hj1 hj2
    have := h3 (j - start) (by omega)
    have e : start + (j - start) = j := by omega
    simpa [e] using this
  · rintro ⟨h1, h2, h3, h4⟩
    apply Option.map_eq_some'.mpr
    refine ⟨i - start, ?_, by omega⟩
    apply List.find?_range_eq_some.mpr
    have e : start + (i - start) = i := by omega
    refine ⟨by simpa [e] using h1, List.mem_range.mpr (by omega), ?_⟩
    intro j hj
    have := h4 (start + j) (by omega) (by omega)
    simpa using this

theorem execute_find_cases (fold : Char → Char) (v : FindView) (string : QString)
    (cs : Bool) :
    (∀ i, findFrom fold cs v.document string (max v.textCursor.anchor v.textCursor.position)
        = some i →
      v.execute_find fold string cs = { v with textCursor := ⟨i, i + string.length⟩ })
    ∧ (findFrom fold cs v.document string (max v.textCursor.anchor v.textCursor.position)
        = none →
      (∀ i, findFrom fold cs v.document string 0 = some i →
        v.execute_find fold string cs
          = { v with
              textCursor := ⟨i, i + string.length⟩
              findStatusLabel := "Search started from the beginning".toList })
      ∧ (findFrom fold cs v.document string 0 = none →
        v.execute_find fold string cs
          = { v with textCursor := ⟨0, 0⟩, findStatusLabel := "Not found".toList })) := by
  refine ⟨?_, ?_⟩
  · intro i h
    simp [FindView.execute_find, FindView.find, h]
  · intro h
    refine ⟨?_, ?_⟩
    · intro i h2
      simp [FindView.execute_find, FindView.find, h, h2]
    · intro h2
      simp [FindView.execute_find, FindView.find, h, h2]

theorem execute_find_outcomes (fold : Char → Char) (v : FindView) (string : QString)
    (cs : Bool) :
    ((∀ j, j ≤ v.document.length → occursAt fold cs v.document string j = false) →
        (v.execute_find fold string cs).findStatusLabel = "Not found".toList)
      ∧ (∀ i, i ≤ v.document.length → occursAt fold cs v.document string i = true →
          (∀ j, j < i → occursAt fold cs v.document string j = false) →
          (∀ j, max v.textCursor.anchor v.textCursor.position ≤ j → j ≤ v.document.length →
            occursAt fold cs v.document string j = false) →
          (v.execute_find fold string cs).textCursor = ⟨i, i + string.length⟩
            ∧ (v.execute_find fold string cs).findStatusLabel
                = "Search started from the beginning".toList)
      ∧ (∀ i, max v.textCursor.anchor v.textCursor.position ≤ i → i ≤ v.document.length →
          occursAt fold cs v.document string i = true →
          (∀ j, max v.textCursor.anchor v.textCursor.position ≤ j → j < i →
            occursAt fold cs v.document string j = false) →
          (v.execute_find fold string cs).textCursor = ⟨i, i + string.length⟩
            ∧ (v.execute_find fold string cs).findStatusLabel = v.findStatusLabel)
      ∧ (v.findStatusLabel ≠ "Not found".toList →
          ((v.execute_find fold string cs).findStatusLabel = "Not found".toList
            ↔ ∀ j, j ≤ v.document.length → occursAt fold cs v.document string j = false))
      ∧ (v.execute_find fold string cs).document = v.document := by
  obtain ⟨c1, c2⟩ := execute_find_cases fold v string cs
  have none0 : (∀ j, j ≤ v.document.length → occursAt fold cs v.document string j = false) →
      findFrom fold cs v.document string 0 = none := by
    intro h
    exact (findFrom_eq_none_iff fold cs v.document string 0).mpr (fun j _ hj => h j hj)
  have noneC : (∀ j, j ≤ v.document.length → occursAt fold cs v.document string j = false) →
      findFrom fold cs v.document string (max v.textCursor.anchor v.textCursor.position)
        = none := by
    intro h
    exact (findFrom_eq_none_iff fold cs v.document string _).mpr (fun j _ hj => h j hj)
  have notFound : (∀ j, j ≤ v.document.length →
      occursAt fold cs v.document string j = false) →
      (v.execute_find fold string cs).findStatusLabel = "Not found".toList := by
    intro h
    rw [(c2 (noneC h)).2 (none0 h)]
  refine ⟨notFound, ?_, ?_, ?_, ?_⟩
  · intro i hi hocc hfirst hafter
    have h1 := (findFrom_eq_none_iff fold cs v.document string _).mpr hafter
    have h2 := (findFrom_eq_some_iff fold cs v.document string 0 i).mpr
      ⟨hocc, Nat.zero_le _, hi, fun j _ hj => hfirst j hj⟩
    rw [(c2 h1).1 i h2]
    exact ⟨rfl, rfl⟩
  · intro i hci hi hocc hfirst
    have h1 := (findFrom_eq_some_iff fold cs v.document string _ i).mpr
      ⟨hocc, hci, hi, hfirst⟩
    rw [c1 i h1]
    exact ⟨rfl, rfl⟩
  · intro hlabel
    refine ⟨?_, notFound⟩
    intro hres
    cases h1 : findFrom fold cs v.document string
        (max v.textCursor.anchor v.textCursor.position) with
    | some i =>
      rw [c1 i h1] at hres
      exact absurd hres hlabel
    | none =>
      cases h2 : findFrom fold cs v.document string 0 with
      | some i =>
        rw [(c2 h1).1 i h2] at hres
        have hne : "Search started from the beginning".toList ≠ "Not found".toList := by
          decide
        exact absurd hres hne
      | none =>
        intro j hj
        exact (findFrom_eq_none_iff fold cs v.document string 0).mp h2 j (Nat.zero_le _) hj
  · cases h1 : findFrom fold cs v.document string
        (max v.textCursor.anchor v.textCursor.position) with
    | some i => rw [c1 i h1]
    | none =>
      cases h2 : findFrom fold cs v.document string 0 with
      | some i => rw [(c2 h1).1 i h2]
      | none => rw [(c2 h1).2 h2]


/-- C7: `execute_find(string, flags)` over a forward search from the cursor. When the
string stands nowhere in the document the status label becomes `Not found`. When it
stands in the document but nowhere from the cursor on, the first occurrence in the
document is selected and the status label becomes `Search started from the beginning`.
When it stands somewhere from the cursor on, the first such occurrence is selected and
the status label keeps its text. Hence a label that did not read `Not found` before
reads `Not found` afterwards exactly when the string stands nowhere in the document.
The document is never changed. The slot
`on_findLineEdit_returnPressed` empties the label first, so after it the label reads
`Not found` exactly when the string stands nowhere in the document. -/
theorem execute_find_status (fold : Char → Char) (v : FindView) (string : QString)
    (cs : Bool) :
    (((∀ j, j ≤ v.document.length → occursAt fold cs v.document string j = false) →
          (v.execute_find fold string cs).findStatusLabel = "Not found".toList)
        ∧ (∀ i, i ≤ v.document.length → occursAt fold cs v.document string i = true →
            (∀ j, j < i → occursAt fold cs v.document string j = false) →
            (∀ j, max v.textCursor.anchor v.textCursor.position ≤ j → j ≤ v.document.length →
              occursAt fold cs v.document string j = false) →
            (v.execute_find fold string cs).textCursor = ⟨i, i + string.length⟩
              ∧ (v.execute_find fold string cs).findStatusLabel
                  = "Search started from the beginning".toList)
        ∧ (∀ i, max v.textCursor.anchor v.textCursor.position ≤ i → i ≤ v.document.length →
            occursAt fold cs v.document string i = true →
            (∀ j, max v.textCursor.anchor v.textCursor.position ≤ j → j < i →
              occursAt fold cs v.document string j = false) →
            (v.execute_find fold string cs).textCursor = ⟨i, i + string.length⟩
              ∧ (v.execute_find fold string cs).findStatusLabel = v.findStatusLabel)
        ∧ (v.findStatusLabel ≠ "Not found".toList →
            ((v.execute_find fold string cs).findStatusLabel = "Not found".toList
              ↔ ∀ j, j ≤ v.document.length → occursAt fold cs v.document string j = false))
        ∧ (v.execute_find fold string cs).document = v.document)
    ∧ ((v.on_findLineEdit_returnPressed fold string (!cs)).findStatusLabel
          = "Not found".toList
        ↔ ∀ j, j ≤ v.document.length → occursAt fold cs v.document string j = false) := by
  refine ⟨execute_find_outcomes fold v string cs, ?_⟩
  have hne : ([] : QString) ≠ "Not found".toList := by decide
  have h := (execute_find_outcomes fold { v with findStatusLabel := [] } string cs).2.2.2.1
    hne
  unfold FindView.on_findLineEdit_returnPressed
  rw [Bool.not_not]
  exact h

/-- Witness of `execute_find_status`: in `abc abc` with the cursor at 6 the string `bc`
stands at 1 and 5 only, so the search starts again from the beginning and selects the
occurrence at 1. -/
theorem execute_find_status_witness :
    (FindView.execute_find Char.toLower ⟨"abc abc".toList, ⟨6, 6⟩, []⟩ "bc".toList
        true).textCursor = ⟨1, 1 + "bc".toList.length⟩
      ∧ (FindView.execute_find Char.toLower ⟨"abc abc".toList, ⟨6, 6⟩, []⟩ "bc".toList
          true).findStatusLabel = "Search started from the beginning".toList :=
  (execute_find_status Char.toLower ⟨"abc abc".toList, ⟨6, 6⟩, []⟩ "bc".toList true).1.2.1 1
    (by decide) (by decide) (by decide) (by decide)
